import Mathlib

/-!
Verification of the postgres statement-metrics collection pipeline
(`datadog_checks/postgres/statements.py`).

The pipeline is embedded shallowly: database results, the SQL obfuscator and
the signature function are supplied by an `Env` oracle; the mutable fields of
`PostgresStatementMetrics` become a `JobState` record threaded explicitly;
exceptions become `Except` values.  Python dictionaries keyed by strings or
row identities become association lists with insertion-order semantics
(`alist_get` returns the first binding, `dict_set` replaces in place or
appends, matching CPython dict behaviour).
-/

namespace PgStatements

/-- First binding for a key in an association list (CPython dict lookup). -/
def alist_get {κ : Type} [DecidableEq κ] {α : Type} (k : κ) : List (κ × α) → Option α
  | [] => none
  | (k2, v) :: rest => if k2 = k then some v else alist_get k rest

/-- Insert-or-replace for an association list (CPython dict assignment:
replaces the existing binding in place, otherwise appends). -/
def dict_set {κ : Type} [DecidableEq κ] {α : Type} (m : List (κ × α)) (k : κ) (v : α) :
    List (κ × α) :=
  if (alist_get k m).isSome then m.map (fun p => if p.1 = k then (k, v) else p)
  else m ++ [(k, v)]

/-- Row identity: (query_signature, datname, rolname), as computed by
`_row_key` in the source. -/
abbrev RKey := String × String × String

/-- Metric columns of a row: column name to cumulative value. -/
abbrev Metrics := List (String × Int)

/-- Baselines stored by the delta engine, keyed by row identity. -/
abbrev DeltaState := List (RKey × Metrics)

/-- Value of a metric column in a row, defaulting to 0 when absent. -/
def getMetric (m : Metrics) (c : String) : Int := (alist_get c m).getD 0

/-- Parsed metadata attached by the obfuscator to a statement. -/
structure Metadata where
  tables : List String
  commands : List String
  deriving DecidableEq

/-- The parsed table list (`row.metadata.parse_tables_csv()` in the source;
the CSV parsing itself lives in an external collaborator, so the model keeps
the already-parsed list). -/
def Metadata.parse_tables_csv (m : Metadata) : List String := m.tables

/-- Result of the external SQL obfuscator: normalized query plus metadata. -/
structure Statement where
  query : String
  metadata : Metadata
  deriving DecidableEq

/-- A raw row fetched from pg_stat_statements. -/
structure RawRow where
  query : String
  datname : String
  rolname : String
  metrics : Metrics
  deriving DecidableEq

/-- A normalized row: query replaced by obfuscated text, signature added. -/
structure NRow where
  query : String
  query_signature : String
  datname : String
  rolname : String
  metrics : Metrics
  deriving DecidableEq

/-- A normalized row together with its obfuscation metadata (`DbRow`). -/
structure DbRow where
  data : NRow
  metadata : Metadata
  deriving DecidableEq

/-- Row produced by `_collect_metrics_rows`: the metadata is re-attached via
a dictionary lookup that may in principle miss, hence `Option`. -/
abbrev OutRow := NRow × Option Metadata

/-- The row identity of a normalized row (`_row_key(row)` in the source). -/
def rowKey (r : NRow) : RKey := (r.query_signature, r.datname, r.rolname)

/-- Exception model for the psycopg2 class hierarchy: concrete subclasses are
encoded as boolean flags, `typeName` is the Python class name used in tags,
`pgerror` the server message inspected by the classifier. -/
structure PgError where
  typeName : String
  pgerror : String
  isProgrammingError : Bool
  isQueryCanceled : Bool
  isObjectNotInPrerequisiteState : Bool
  isUndefinedTable : Bool
  deriving DecidableEq

/-- An exception escaping a database call: either a psycopg2 error (caught by
the fetcher) or an arbitrary other exception (propagates to the top of the
cycle), carrying its message. -/
inductive DbExn where
  | pg : PgError → DbExn
  | other : String → DbExn
  deriving DecidableEq

/-- Substring test on strings (the Python `in` operator), as an infix test
on the character lists. -/
def strContains (s pat : String) : Bool := decide (pat.data <:+: s.data)

/-- Mutable fields of `PostgresStatementMetrics` threaded through the model:
the discovered-column cache, the delta-engine baselines, and the full
statement text TTL cache (identity to absolute expiry time). -/
structure JobState where
  stat_column_cache : List String
  state : DeltaState
  fqt_cache : List (RKey × ℚ)
  deriving DecidableEq

/-- Environment oracle: results of the three database calls, the external
obfuscator and signature function, configuration and ambient data. -/
structure Env where
  columns_result : Except DbExn (List String)
  exec_result : Except DbExn (List RawRow)
  count_result : Except DbExn Int
  obfuscate : String → Option Statement
  compute_sig : String → String
  tags : List String
  debug_tags : List String
  hostname : String
  now : ℚ
  min_collection_interval : ℚ
  fqt_ttl : ℚ
  pg_version : String
  agent_version : String

/-- One increment of a diagnostic counter: metric name and its tag list. -/
structure CounterInc where
  name : String
  tags : List String
  deriving DecidableEq

/-- Required columns for the check to run
(`PG_STAT_STATEMENTS_REQUIRED_COLUMNS`). -/
def PG_STAT_STATEMENTS_REQUIRED_COLUMNS : List String := ["calls", "query", "rows"]

/-- Tracked metric columns (`PG_STAT_STATEMENTS_METRICS_COLUMNS`). -/
def PG_STAT_STATEMENTS_METRICS_COLUMNS : List String :=
  ["calls", "rows", "total_time", "total_exec_time", "shared_blks_hit",
   "shared_blks_read", "shared_blks_dirtied", "shared_blks_written",
   "local_blks_hit", "local_blks_read", "local_blks_dirtied",
   "local_blks_written", "temp_blks_read", "temp_blks_written"]

/-- The TTL configured for the full statement text cache at construction:
`ttl=60 * 60 / config.full_statement_text_samples_per_hour_per_query`. -/
def full_statement_text_cache_ttl (samples_per_hour : ℚ) : ℚ :=
  60 * 60 / samples_per_hour

/-!  ## Delta State Engine

`StatementMetrics.compute_derivative_rows` lives in `datadog_checks.base`
(`utils/db/statement_metrics.py`), which is part of this repository but not
among the provided sources, so it is modelled from the specification.
-/

/-- Per-row step of the delta engine: unseen identity records a baseline and
emits nothing; otherwise emit (new - old) when every tracked column is
non-decreasing, and the new absolute values on any decrease (reset). -/
def deltaMetrics (cols : List String) (old curr : Metrics) : Metrics :=
  curr.map (fun p => if p.1 ∈ cols then (p.1, p.2 - getMetric old p.1) else p)

/-- Modelled from the spec: the per-row emission rule of
`StatementMetrics.compute_derivative_rows` (datadog_checks.base, not under
the provided sources).  If the identity is unseen, no row is emitted; if
every tracked column is non-decreasing the metric columns become new minus
old; if any tracked column decreased, the row is emitted with its new
absolute values. -/
def derivRow (cols : List String) (state : DeltaState) (r : NRow) : Option NRow :=
  match alist_get (rowKey r) state with
  | none => none
  | some old =>
    if ∀ c ∈ cols, getMetric old c ≤ getMetric r.metrics c then
      some { r with metrics := deltaMetrics cols old r.metrics }
    else
      some r

/-- Modelled from the spec: `StatementMetrics.compute_derivative_rows`
(datadog_checks.base, not under the provided sources).  Emits the per-row
deltas and replaces the stored baselines with exactly the identities present
in the current rows, so identities absent from this cycle are dropped. -/
def compute_derivative_rows (cols : List String) (state : DeltaState) (rows : List NRow) :
    List NRow × DeltaState :=
  (rows.filterMap (derivRow cols state), rows.map (fun r => (rowKey r, r.metrics)))

/-- Runs the delta engine over a sequence of cycles, returning the emitted
rows of every cycle and the final state. -/
def run_cycles (cols : List String) (state : DeltaState) :
    List (List NRow) → List (List NRow) × DeltaState
  | [] => ([], state)
  | cs :: rest =>
    let p := compute_derivative_rows cols state cs
    let q := run_cycles cols p.2 rest
    (p.1 :: q.1, q.2)

/-- A cycle that observes identity `k` with metric values `v`: its input rows
have pairwise distinct identities and contain a row with identity `k` whose
metrics are `v`. -/
def GoodCycle (k : RKey) (cs : List NRow) (v : Metrics) : Prop :=
  (cs.map rowKey).Nodup ∧ ∃ r ∈ cs, rowKey r = k ∧ r.metrics = v

/-- Sum over a sequence of emitted cycles of the values of column `c` in the
rows emitted for identity `k`. -/
def emittedSumFor (k : RKey) (c : String) (outs : List (List NRow)) : Int :=
  (outs.map (fun out =>
    ((out.filter (fun x => decide (rowKey x = k))).map
      (fun x => getMetric x.metrics c)).sum)).sum

/-!  ## Pipeline -/

/-- Model of `_execute_query`: on success return the rows; on a
`ProgrammingError` or `QueryCanceled`, clear the stat column cache before
re-raising; every other exception re-raises with the cache untouched. -/
def execute_query {α : Type} (st : JobState) (res : Except DbExn α) :
    Except DbExn α × JobState :=
  match res with
  | .ok r => (.ok r, st)
  | .error (.pg e) =>
    if e.isProgrammingError || e.isQueryCanceled then
      (.error (.pg e), { st with stat_column_cache := [] })
    else (.error (.pg e), st)
  | .error (.other n) => (.error (.other n), st)

/-- Model of `_get_pg_stat_statements_columns`: return the cached column list
when non-empty, otherwise run the discovery query and cache its result. -/
def get_pg_stat_statements_columns (env : Env) (st : JobState) :
    Except DbExn (List String) × JobState :=
  if st.stat_column_cache.length > 0 then (.ok st.stat_column_cache, st)
  else
    match execute_query st env.columns_result with
    | (.ok cols, st1) => (.ok cols, { st1 with stat_column_cache := cols })
    | (.error e, st1) => (.error e, st1)

/-- The diagnostic counter increment emitted on fetch failures:
`dd.postgres.statement_metrics.error` with the error tag spliced between the
check tags and the debug tags. -/
def mkErrorInc (env : Env) (tag : String) : CounterInc :=
  { name := "dd.postgres.statement_metrics.error",
    tags := env.tags ++ [tag] ++ env.debug_tags }

/-- Classification of a psycopg2 error into the tag recorded on the
diagnostic counter, mirroring the except clause of
`_load_pg_stat_statements`. -/
def classifyErrorTag (e : PgError) : String :=
  if e.isObjectNotInPrerequisiteState &&
      strContains e.pgerror "pg_stat_statements must be loaded" then
    "error:database-" ++ e.typeName ++ "-pg_stat_statements_not_loaded"
  else if e.isUndefinedTable && strContains e.pgerror "pg_stat_statements" then
    "error:database-" ++ e.typeName ++ "-pg_stat_statements_not_created"
  else
    "error:database-" ++ e.typeName

/-- Model of `_load_pg_stat_statements`.  Returns the fetched raw rows (or
an escaping non-psycopg2 exception message), the updated state and the
diagnostic counter increments emitted.  Missing required columns abort with
an empty result and one tagged increment; psycopg2 errors from either query
are caught, classified, counted once and converted to an empty result. -/
def load_pg_stat_statements (env : Env) (st : JobState) :
    Except String (List RawRow) × JobState × List CounterInc :=
  match get_pg_stat_statements_columns env st with
  | (.error (.other n), st1) => (.error n, st1, [])
  | (.error (.pg e), st1) => (.ok [], st1, [mkErrorInc env (classifyErrorTag e)])
  | (.ok cols, st1) =>
    let missing := PG_STAT_STATEMENTS_REQUIRED_COLUMNS.filter
      (fun c => !(cols.contains c))
    if missing.length > 0 then
      (.ok [], st1,
        [mkErrorInc env "error:database-missing_pg_stat_statements_required_columns"])
    else
      match execute_query st1 env.exec_result with
      | (.ok rows, st2) => (.ok rows, st2, [])
      | (.error (.pg e), st2) => (.ok [], st2, [mkErrorInc env (classifyErrorTag e)])
      | (.error (.other n), st2) => (.error n, st2, [])

/-- Model of `_emit_pg_stat_statements_metrics`: runs the count query;
psycopg2 errors are caught and only logged, other exceptions propagate.  The
emitted count gauges carry no information the claims depend on and are not
tracked. -/
def emit_pg_stat_statements_metrics (env : Env) (st : JobState) :
    Except String JobState :=
  match execute_query st env.count_result with
  | (.ok _, st1) => .ok st1
  | (.error (.pg _), st1) => .ok st1
  | (.error (.other n), _) => .error n

/-- Model of `_normalize_queries`: rows whose obfuscation raises are skipped;
for the others the query text is replaced by the obfuscated text, the
signature is computed from the obfuscated text and the parsed metadata is
attached. -/
def normalize_queries (env : Env) (rows : List RawRow) : List DbRow :=
  rows.filterMap (fun row =>
    match env.obfuscate row.query with
    | none => none
    | some statement =>
      some { data := { query := statement.query,
                       query_signature := env.compute_sig statement.query,
                       datname := row.datname,
                       rolname := row.rolname,
                       metrics := row.metrics },
             metadata := statement.metadata })

/-- The signature-to-metadata dictionary built before delta computation
(`query_sig_to_metadata`); a dict comprehension, so a later row with the
same signature replaces the binding of an earlier one. -/
def buildSigMap (db_rows : List DbRow) : List (String × Metadata) :=
  db_rows.foldl (fun m r => dict_set m r.data.query_signature r.metadata) []

/-- Metadata re-attachment after delta computation: each surviving row is
paired with the dictionary entry found under its query signature alone. -/
def remapMetadata (sigMap : List (String × Metadata)) (rows : List NRow) :
    List OutRow :=
  rows.map (fun row => (row, alist_get row.query_signature sigMap))

/-- The column names present in a normalized row dictionary. -/
def nrowKeys (r : NRow) : List String :=
  ["query", "query_signature", "datname", "rolname"] ++ r.metrics.map Prod.fst

/-- The tracked metric columns of a batch: the intersection of the first row
columns with `PG_STAT_STATEMENTS_METRICS_COLUMNS`. -/
def metricColumnsOf (db_rows : List DbRow) : List String :=
  match db_rows with
  | [] => []
  | r :: _ => PG_STAT_STATEMENTS_METRICS_COLUMNS.filter (fun c => c ∈ nrowKeys r.data)

/-- Model of `_collect_metrics_rows`: fetch, emit the count metrics when rows
were returned, normalize, run the delta engine and re-attach metadata by
query signature. -/
def collect_metrics_rows (env : Env) (st : JobState) :
    Except String (List OutRow) × JobState × List CounterInc :=
  match load_pg_stat_statements env st with
  | (.error n, st1, incs) => (.error n, st1, incs)
  | (.ok rows, st1, incs) =>
    match (if rows.length > 0 then emit_pg_stat_statements_metrics env st1
           else .ok st1) with
    | .error n => (.error n, st1, incs)
    | .ok st2 =>
      let db_rows := normalize_queries env rows
      if db_rows.length = 0 then (.ok [], st2, incs)
      else
        let sigMap := buildSigMap db_rows
        let res := compute_derivative_rows (metricColumnsOf db_rows) st2.state
          (db_rows.map (fun d => d.data))
        (.ok (remapMetadata sigMap res.1), { st2 with state := res.2 }, incs)

/-- The tags with the default db tag excluded, as computed by `run_job`. -/
def tags_no_db (tags : List String) : List String :=
  tags.filter (fun t => !(t.startsWith "db:"))

/-- A full query text event, with the fields the claims inspect. -/
structure FqtEvent where
  timestamp : ℚ
  host : String
  ddsource : String
  ddtags : String
  dbm_type : String
  db_instance : String
  query_signature : String
  statement : String
  datname : String
  rolname : String
  deriving DecidableEq

/-- Builds the full query text event for one row: the statement field holds
the row query text as it stands when the event is generated. -/
def mkFqtEvent (env : Env) (r : NRow) : FqtEvent :=
  { timestamp := env.now * 1000,
    host := env.hostname,
    ddsource := "postgres",
    ddtags := String.intercalate ","
      (tags_no_db env.tags ++ ["db:" ++ r.datname, "rolname:" ++ r.rolname]),
    dbm_type := "fqt",
    db_instance := r.datname,
    query_signature := r.query_signature,
    statement := r.query,
    datname := r.datname,
    rolname := r.rolname }

/-- Membership test of the TTL cache: a key is contained while its stored
expiry lies strictly in the future (cachetools TTLCache semantics). -/
def cacheContains (cache : List (RKey × ℚ)) (now : ℚ) (k : RKey) : Bool :=
  match alist_get k cache with
  | some expiry => decide (now < expiry)
  | none => false

/-- Model of `_rows_to_fqt_events`: skip rows whose identity is live in the
full statement text cache; otherwise insert the identity with expiry
`now + ttl` and emit one event for the row. -/
def rows_to_fqt_events (env : Env) (ttl : ℚ) :
    List (RKey × ℚ) → List OutRow → List FqtEvent × List (RKey × ℚ)
  | cache, [] => ([], cache)
  | cache, row :: rest =>
    let k := rowKey row.1
    if cacheContains cache env.now k then
      rows_to_fqt_events env ttl cache rest
    else
      let res := rows_to_fqt_events env ttl (dict_set cache k (env.now + ttl)) rest
      (mkFqtEvent env row.1 :: res.1, res.2)

/-- A row of the metrics payload: query text truncated for display, parsed
metadata flattened in under the dd-prefixed keys. -/
structure PayloadRow where
  query : String
  query_signature : String
  datname : String
  rolname : String
  metrics : Metrics
  dd_tables : List String
  dd_commands : List String
  deriving DecidableEq

/-- The per-row mutation applied while assembling the metrics payload:
truncate the query text to 200 characters and flatten the metadata in.  The
metadata lookup cannot miss for rows produced by the pipeline; a missing
entry degrades to empty lists. -/
def toPayloadRow (p : OutRow) : PayloadRow :=
  { query := p.1.query.take 200,
    query_signature := p.1.query_signature,
    datname := p.1.datname,
    rolname := p.1.rolname,
    metrics := p.1.metrics,
    dd_tables := (p.2.map Metadata.parse_tables_csv).getD [],
    dd_commands := (p.2.map Metadata.commands).getD [] }

/-- The aggregated metrics payload emitted at most once per cycle. -/
structure MetricsPayload where
  host : String
  timestamp : ℚ
  min_collection_interval : ℚ
  tags : List String
  postgres_rows : List PayloadRow
  postgres_version : String
  ddagentversion : String
  deriving DecidableEq

/-- The body of `collect_per_statement_metrics` (the try block): collect the
delta rows, stop silently when there are none, otherwise generate and emit
the full query text events and then assemble the metrics payload from the
truncated rows.  An escaping exception carries the state and counters
accumulated up to the raise. -/
def collect_body (env : Env) (st : JobState) :
    Except (String × JobState × List CounterInc)
      (JobState × List CounterInc × List FqtEvent × Option MetricsPayload) :=
  match collect_metrics_rows env st with
  | (.error n, st1, incs) => .error (n, st1, incs)
  | (.ok rows, st1, incs) =>
    if rows.length = 0 then .ok (st1, incs, [], none)
    else
      let res := rows_to_fqt_events env env.fqt_ttl st1.fqt_cache rows
      .ok ({ st1 with fqt_cache := res.2 }, incs, res.1,
        some { host := env.hostname,
               timestamp := env.now * 1000,
               min_collection_interval := env.min_collection_interval,
               tags := tags_no_db env.tags,
               postgres_rows := rows.map toPayloadRow,
               postgres_version := env.pg_version,
               ddagentversion := env.agent_version })

/-- Observable outcome of one collection cycle. -/
structure CycleResult where
  st : JobState
  incs : List CounterInc
  fqt_events : List FqtEvent
  metrics_payload : Option MetricsPayload
  exn_logged : Option String
  deriving DecidableEq

/-- Model of `collect_per_statement_metrics`: the body runs under a
catch-all handler; an escaping exception is logged and the cycle ends with
no metrics payload. -/
def collect_per_statement_metrics (env : Env) (st : JobState) : CycleResult :=
  match collect_body env st with
  | .ok (st1, incs, evs, p) =>
    { st := st1, incs := incs, fqt_events := evs, metrics_payload := p,
      exn_logged := none }
  | .error (n, st1, incs) =>
    { st := st1, incs := incs, fqt_events := [], metrics_payload := none,
      exn_logged := some n }

/-!  ## Specification predicates -/

/-- The monotone-counters order between two observations of an identity,
restricted to the tracked columns. -/
def MonoLe (cols : List String) (u w : Metrics) : Prop :=
  ∀ c ∈ cols, getMetric u c ≤ getMetric w c

/-- The relation between a raw row and its normalized image: obfuscation
succeeded and produced the normalized query, the signature derives from the
obfuscated text, the context columns and metrics are carried over, and the
parsed metadata is attached. -/
def NormalizedFrom (env : Env) (r : RawRow) (d : DbRow) : Prop :=
  ∃ s, env.obfuscate r.query = some s ∧ d.data.query = s.query ∧
    d.data.query_signature = env.compute_sig s.query ∧
    d.data.datname = r.datname ∧ d.data.rolname = r.rolname ∧
    d.data.metrics = r.metrics ∧ d.metadata = s.metadata

/-- The metadata of the last row in a batch carrying a given signature. -/
def lastMetaFor (s : String) : List DbRow → Option Metadata
  | [] => none
  | r :: rest =>
    match lastMetaFor s rest with
    | some m => some m
    | none => if r.data.query_signature = s then some r.metadata else none

/-!  ## Concrete witness data -/

/-- Tracked columns used by the concrete witnesses. -/
def wCols : List String := ["calls", "rows"]

/-- Identity used by the concrete witnesses. -/
def wKey : RKey := ("s1", "d1", "r1")

/-- First-cycle observation of the witness identity: calls 5, rows 5. -/
def wRow1 : NRow :=
  { query := "SELECT ?", query_signature := "s1", datname := "d1",
    rolname := "r1", metrics := [("calls", 5), ("rows", 5)] }

/-- Second-cycle observation of the witness identity: calls 8, rows 8. -/
def wRow2 : NRow :=
  { query := "SELECT ?", query_signature := "s1", datname := "d1",
    rolname := "r1", metrics := [("calls", 8), ("rows", 8)] }

/-- Reset-cycle observation of the witness identity: calls dropped to 2. -/
def wRow3 : NRow :=
  { query := "SELECT ?", query_signature := "s1", datname := "d1",
    rolname := "r1", metrics := [("calls", 2), ("rows", 2)] }

/-- A concrete environment used by the pipeline witnesses. -/
def wEnv : Env :=
  { columns_result := .ok ["calls", "query", "rows"],
    exec_result := .ok [],
    count_result := .ok 0,
    obfuscate := fun q =>
      if q = "bad" then none
      else some { query := q, metadata := { tables := [], commands := [] } },
    compute_sig := fun q => q ++ "-sig",
    tags := ["foo:bar", "db:main"],
    debug_tags := [],
    hostname := "host1",
    now := 0,
    min_collection_interval := 10,
    fqt_ttl := 1800,
    pg_version := "v13.2.0",
    agent_version := "7.30.0" }

/-- A job state with empty caches and empty delta state. -/
def wSt : JobState := { stat_column_cache := [], state := [], fqt_cache := [] }

/-- A concrete UndefinedTable error whose message mentions the missing
pg_stat_statements relation. -/
def wPgErr : PgError :=
  { typeName := "UndefinedTable",
    pgerror := "relation pg_stat_statements does not exist",
    isProgrammingError := true, isQueryCanceled := false,
    isObjectNotInPrerequisiteState := false, isUndefinedTable := true }

/-- Raw row fetched in the C9 witness cycle. -/
def wRaw : RawRow :=
  { query := "SELECT 1", datname := "d1", rolname := "r1",
    metrics := [("calls", 5), ("rows", 5)] }

/-- Metadata produced for the C9 witness row by the witness obfuscator. -/
def wMetaEmpty : Metadata := { tables := [], commands := [] }

/-- The delta row the witness cycle emits: calls 5 minus 3, rows 5 minus 2. -/
def wDeltaRow : NRow :=
  { query := "SELECT 1", query_signature := "SELECT 1-sig", datname := "d1",
    rolname := "r1", metrics := [("calls", 2), ("rows", 3)] }

/-- Job state holding a baseline for the C9 witness identity. -/
def wSt2 : JobState :=
  { stat_column_cache := [],
    state := [(("SELECT 1-sig", "d1", "r1"), [("calls", 3), ("rows", 2)])],
    fqt_cache := [] }

/-- Job state after the C9 witness cycle. -/
def wStOut : JobState :=
  { stat_column_cache := ["calls", "query", "rows"],
    state := [(("SELECT 1-sig", "d1", "r1"), [("calls", 5), ("rows", 5)])],
    fqt_cache := [] }

/-- Metadata attached to the earlier of the two C10 witness rows. -/
def wMeta1 : Metadata := { tables := ["t1"], commands := ["SELECT"] }

/-- Metadata attached to the later of the two C10 witness rows. -/
def wMeta2 : Metadata := { tables := ["t2"], commands := ["UPDATE"] }

/-- First C10 witness row: signature s1, database d1. -/
def wDbRowA : DbRow := { data := wRow1, metadata := wMeta1 }

/-- Second C10 witness row: same signature s1 but database d2. -/
def wDbRowB : DbRow :=
  { data := { wRow1 with datname := "d2" }, metadata := wMeta2 }

/-- The output pair produced by remapping over the two C10 witness rows. -/
def wP : OutRow :=
  (wRow1, alist_get wRow1.query_signature (buildSigMap [wDbRowA, wDbRowB]))

/-!  ## Association list lemmas -/

lemma alist_get_map_replace_ne {κ α : Type} [DecidableEq κ] (m : List (κ × α))
    (k2 k : κ) (v : α) (h : k2 ≠ k) :
    alist_get k (m.map (fun p => if p.1 = k2 then (k2, v) else p)) = alist_get k m := by
  induction m with
  | nil => rfl
  | cons a tl ih =>
    obtain ⟨a1, a2⟩ := a
    rw [List.map_cons]
    by_cases h1 : a1 = k2
    · subst h1
      rw [if_pos (rfl : ((a1, a2).1 : κ) = a1)]
      simp [alist_get, h, ih]
    · rw [if_neg (by simpa using h1)]
      simp [alist_get, ih]

lemma alist_get_map_replace_self {κ α : Type} [DecidableEq κ] (m : List (κ × α))
    (k2 : κ) (v : α) (h : (alist_get k2 m).isSome) :
    alist_get k2 (m.map (fun p => if p.1 = k2 then (k2, v) else p)) = some v := by
  induction m with
  | nil => simp [alist_get] at h
  | cons a tl ih =>
    obtain ⟨a1, a2⟩ := a
    rw [List.map_cons]
    by_cases h1 : a1 = k2
    · subst h1
      rw [if_pos (rfl : ((a1, a2).1 : κ) = a1)]
      simp [alist_get]
    · have h2 : (alist_get k2 tl).isSome := by
        simpa [alist_get, h1] using h
      rw [if_neg (by simpa using h1)]
      simp [alist_get, h1, ih h2]

lemma alist_get_append {κ α : Type} [DecidableEq κ] (m n : List (κ × α)) (k : κ) :
    alist_get k (m ++ n) =
      match alist_get k m with
      | some v => some v
      | none => alist_get k n := by
  induction m with
  | nil => simp [alist_get]
  | cons a tl ih =>
    obtain ⟨a1, a2⟩ := a
    by_cases h1 : a1 = k
    · simp [alist_get, h1]
    · simp [alist_get, h1, ih]

lemma alist_get_dict_set {κ α : Type} [DecidableEq κ] (m : List (κ × α))
    (k2 k : κ) (v : α) :
    alist_get k (dict_set m k2 v) = if k2 = k then some v else alist_get k m := by
  unfold dict_set
  by_cases hs : (alist_get k2 m).isSome
  · rw [if_pos hs]
    by_cases hk : k2 = k
    · subst hk
      rw [if_pos rfl, alist_get_map_replace_self m k2 v hs]
    · rw [if_neg hk, alist_get_map_replace_ne m k2 k v hk]
  · rw [if_neg hs, alist_get_append]
    have hnone : alist_get k2 m = none := by
      cases hemp : alist_get k2 m with
      | none => rfl
      | some w => rw [hemp] at hs; simp at hs
    by_cases hk : k2 = k
    · subst hk
      rw [hnone]
      simp [alist_get]
    · cases hm : alist_get k m with
      | some w => simp [hk]
      | none => simp [alist_get, hk, Ne.symm hk]

/-!  ## Delta engine lemmas -/

lemma alist_get_deltaMetrics (cols : List String) (old curr : Metrics) (c : String) :
    alist_get c (deltaMetrics cols old curr) =
      (alist_get c curr).map (fun v => if c ∈ cols then v - getMetric old c else v) := by
  induction curr with
  | nil => rfl
  | cons p tl ih =>
    obtain ⟨a, b⟩ := p
    rw [deltaMetrics, List.map_cons] at *
    by_cases hc : a ∈ cols
    · rw [if_pos (by simpa using hc : ((a, b).1 : String) ∈ cols)]
      by_cases hak : a = c
      · subst hak
        simp [alist_get, hc]
      · simp only [alist_get, hak, if_false]
        exact ih
    · rw [if_neg (by simpa using hc : ¬ ((a, b).1 : String) ∈ cols)]
      by_cases hak : a = c
      · subst hak
        simp [alist_get, hc]
      · simp only [alist_get, hak, if_false]
        exact ih

lemma getMetric_deltaMetrics_of_isSome (cols : List String) (old curr : Metrics)
    (c : String) (hc : c ∈ cols) (hp : (alist_get c curr).isSome) :
    getMetric (deltaMetrics cols old curr) c = getMetric curr c - getMetric old c := by
  obtain ⟨v, hv⟩ := Option.isSome_iff_exists.mp hp
  rw [getMetric, alist_get_deltaMetrics, hv]
  simp [getMetric, hv, hc]

lemma derivRow_unseen (cols : List String) (state : DeltaState) (r : NRow)
    (h : alist_get (rowKey r) state = none) : derivRow cols state r = none := by
  unfold derivRow
  rw [h]

lemma derivRow_mono (cols : List String) (state : DeltaState) (r : NRow) (old : Metrics)
    (h : alist_get (rowKey r) state = some old)
    (hle : ∀ c ∈ cols, getMetric old c ≤ getMetric r.metrics c) :
    derivRow cols state r = some { r with metrics := deltaMetrics cols old r.metrics } := by
  unfold derivRow
  rw [h]
  exact if_pos hle

lemma derivRow_reset (cols : List String) (state : DeltaState) (r : NRow) (old : Metrics)
    (h : alist_get (rowKey r) state = some old)
    (hlt : ¬ ∀ c ∈ cols, getMetric old c ≤ getMetric r.metrics c) :
    derivRow cols state r = some r := by
  unfold derivRow
  rw [h]
  exact if_neg hlt

lemma rowKey_derivRow (cols : List String) (state : DeltaState) (r x : NRow)
    (h : derivRow cols state r = some x) : rowKey x = rowKey r := by
  cases halist : alist_get (rowKey r) state with
  | none =>
    rw [derivRow_unseen cols state r halist] at h
    cases h
  | some old =>
    by_cases hb : ∀ c ∈ cols, getMetric old c ≤ getMetric r.metrics c
    · rw [derivRow_mono cols state r old halist hb] at h
      cases h
      rfl
    · rw [derivRow_reset cols state r old halist hb] at h
      cases h
      rfl

lemma filter_key_filterMap (f : NRow → Option NRow)
    (hf : ∀ r x, f r = some x → rowKey x = rowKey r) (k : RKey) (l : List NRow) :
    (l.filterMap f).filter (fun x => decide (rowKey x = k)) =
      (l.filter (fun r => decide (rowKey r = k))).filterMap f := by
  induction l with
  | nil => rfl
  | cons a tl ih =>
    cases hfa : f a with
    | none =>
      by_cases hk : rowKey a = k
      · simp [List.filterMap_cons, hfa, List.filter_cons, hk, ih]
      · simp [List.filterMap_cons, hfa, List.filter_cons, hk, ih]
    | some b =>
      have hb := hf a b hfa
      by_cases hk : rowKey a = k
      · simp [List.filterMap_cons, hfa, List.filter_cons, hk, hb, ih]
      · simp [List.filterMap_cons, hfa, List.filter_cons, hk, hb, ih]

lemma filter_key_singleton (cs : List NRow) (r : NRow)
    (hnd : (cs.map rowKey).Nodup) (hr : r ∈ cs) :
    cs.filter (fun x => decide (rowKey x = rowKey r)) = [r] := by
  induction cs with
  | nil => cases hr
  | cons a tl ih =>
    rw [List.map_cons, List.nodup_cons] at hnd
    rcases List.mem_cons.mp hr with h | h
    · subst h
      have hnil : tl.filter (fun x => decide (rowKey x = rowKey r)) = [] := by
        rw [List.filter_eq_nil_iff]
        intro x hx
        simp only [decide_eq_true_eq]
        intro he
        exact hnd.1 (he ▸ List.mem_map_of_mem rowKey hx)
      simp [List.filter_cons, hnil]
    · have hne : rowKey a ≠ rowKey r := by
        intro he
        exact hnd.1 (he ▸ List.mem_map_of_mem rowKey h)
      simp [List.filter_cons, hne, ih hnd.2 h]

lemma alist_get_newstate_of_mem (cs : List NRow) (r : NRow)
    (hnd : (cs.map rowKey).Nodup) (hr : r ∈ cs) :
    alist_get (rowKey r) (cs.map (fun x => (rowKey x, x.metrics))) = some r.metrics := by
  induction cs with
  | nil => cases hr
  | cons a tl ih =>
    rw [List.map_cons, List.nodup_cons] at hnd
    rcases List.mem_cons.mp hr with h | h
    · subst h
      simp [alist_get]
    · have hne : rowKey a ≠ rowKey r := by
        intro he
        exact hnd.1 (he ▸ List.mem_map_of_mem rowKey h)
      simp [List.map_cons, alist_get, hne, ih hnd.2 h]

lemma alist_get_newstate_of_not_mem (cs : List NRow) (k : RKey)
    (hk : k ∉ cs.map rowKey) :
    alist_get k (cs.map (fun x => (rowKey x, x.metrics))) = none := by
  induction cs with
  | nil => rfl
  | cons a tl ih =>
    rw [List.map_cons, List.mem_cons] at hk
    push_neg at hk
    simp [List.map_cons, alist_get, Ne.symm hk.1, ih hk.2]

lemma cycle_filter_key (cols : List String) (state : DeltaState) (cs : List NRow)
    (r : NRow) (hnd : (cs.map rowKey).Nodup) (hr : r ∈ cs) :
    (compute_derivative_rows cols state cs).1.filter
        (fun x => decide (rowKey x = rowKey r)) =
      (derivRow cols state r).toList := by
  rw [compute_derivative_rows]
  rw [filter_key_filterMap (derivRow cols state) (rowKey_derivRow cols state) (rowKey r) cs,
    filter_key_singleton cs r hnd hr]
  cases hd : derivRow cols state r <;> simp [List.filterMap_cons, hd]

lemma emittedSumFor_cons (k : RKey) (c : String) (o : List NRow) (os : List (List NRow)) :
    emittedSumFor k c (o :: os) =
      ((o.filter (fun x => decide (rowKey x = k))).map
        (fun x => getMetric x.metrics c)).sum + emittedSumFor k c os := by
  simp [emittedSumFor]

lemma run_cycles_cons (cols : List String) (state : DeltaState) (cs : List NRow)
    (rest : List (List NRow)) :
    run_cycles cols state (cs :: rest) =
      ((compute_derivative_rows cols state cs).1 ::
          (run_cycles cols (compute_derivative_rows cols state cs).2 rest).1,
        (run_cycles cols (compute_derivative_rows cols state cs).2 rest).2) := by
  rfl

lemma telescope_aux (cols : List String) (k : RKey) :
    ∀ (css : List (List NRow)) (vs : List Metrics) (state : DeltaState) (v0 : Metrics),
      alist_get k state = some v0 →
      List.Forall₂ (GoodCycle k) css vs →
      List.Chain' (MonoLe cols) (v0 :: vs) →
      (∀ v ∈ vs, ∀ c ∈ cols, (alist_get c v).isSome) →
      ∀ c ∈ cols,
        emittedSumFor k c (run_cycles cols state css).1 =
          getMetric (vs.getLastD v0) c - getMetric v0 c := by
  intro css
  induction css with
  | nil =>
    intro vs state v0 hst hf hchain hp c hc
    cases hf
    simp [run_cycles, emittedSumFor]
  | cons cs rest ih =>
    intro vs state v0 hst hf hchain hp c hc
    cases hf with
    | cons hgood hf2 =>
      rename_i v1 vs2
      obtain ⟨hnd, r, hr, hk, hv⟩ := hgood
      rw [List.chain'_cons] at hchain
      have hle : ∀ c2 ∈ cols, getMetric v0 c2 ≤ getMetric r.metrics c2 := by
        intro c2 hc2
        rw [hv]
        exact hchain.1 c2 hc2
      have hlook : alist_get (rowKey r) state = some v0 := by rw [hk]; exact hst
      have hderiv := derivRow_mono cols state r v0 hlook hle
      have hfilter :
          (compute_derivative_rows cols state cs).1.filter
              (fun x => decide (rowKey x = k)) =
            [{ r with metrics := deltaMetrics cols v0 r.metrics }] := by
        rw [← hk, cycle_filter_key cols state cs r hnd hr, hderiv]
        rfl
      have hstate2 :
          alist_get k (compute_derivative_rows cols state cs).2 = some v1 := by
        rw [compute_derivative_rows, ← hk, ← hv]
        exact alist_get_newstate_of_mem cs r hnd hr
      have hsum := ih vs2 (compute_derivative_rows cols state cs).2 v1 hstate2 hf2
        hchain.2 (fun v hvmem => hp v (List.mem_cons_of_mem v1 hvmem)) c hc
      have hdelta : getMetric (deltaMetrics cols v0 r.metrics) c =
          getMetric v1 c - getMetric v0 c := by
        rw [getMetric_deltaMetrics_of_isSome cols v0 r.metrics c hc
          (by rw [hv]; exact hp v1 (List.mem_cons_self v1 vs2) c hc), hv]
      rw [run_cycles_cons, emittedSumFor_cons, hfilter, hsum]
      simp only [List.map_cons, List.map_nil, List.sum_cons, List.sum_nil]
      rw [hdelta]
      have hlast : (v1 :: vs2).getLastD v0 = vs2.getLastD v1 := List.getLastD_cons v0 v1 vs2
      rw [hlast]
      ring

/-!  ## Claim theorems for the delta engine -/

/-- C1: for an identity observed in two consecutive cycles whose tracked
metric columns are all non-decreasing, the engine emits exactly one row for
the identity whose tracked columns equal new minus old and stores the new
absolute values as the baseline; consequently, over any sequence of cycles
with monotonically non-decreasing per-identity counters, the emitted deltas
for the identity sum to the final absolute value minus the first-observed
absolute value. -/
theorem claim_C1_delta_and_telescoping :
    (∀ (cols : List String) (state : DeltaState) (cs : List NRow)
        (r : NRow) (old : Metrics),
      (cs.map rowKey).Nodup → r ∈ cs →
      alist_get (rowKey r) state = some old →
      (∀ c ∈ cols, getMetric old c ≤ getMetric r.metrics c) →
      ((compute_derivative_rows cols state cs).1.filter
          (fun x => decide (rowKey x = rowKey r)) =
        [{ r with metrics := deltaMetrics cols old r.metrics }] ∧
      (∀ c ∈ cols, (alist_get c r.metrics).isSome →
        getMetric (deltaMetrics cols old r.metrics) c =
          getMetric r.metrics c - getMetric old c) ∧
      alist_get (rowKey r) (compute_derivative_rows cols state cs).2 =
        some r.metrics))
  ∧ (∀ (cols : List String) (state : DeltaState) (k : RKey)
        (css : List (List NRow)) (v0 : Metrics) (vrest : List Metrics),
      alist_get k state = none →
      List.Forall₂ (GoodCycle k) css (v0 :: vrest) →
      List.Chain' (MonoLe cols) (v0 :: vrest) →
      (∀ v ∈ v0 :: vrest, ∀ c ∈ cols, (alist_get c v).isSome) →
      ∀ c ∈ cols,
        emittedSumFor k c (run_cycles cols state css).1 =
          getMetric (vrest.getLastD v0) c - getMetric v0 c) := by
  constructor
  · intro cols state cs r old hnd hr hlook hle
    refine ⟨?_, ?_, ?_⟩
    · rw [cycle_filter_key cols state cs r hnd hr,
        derivRow_mono cols state r old hlook hle]
      rfl
    · intro c hc hp
      exact getMetric_deltaMetrics_of_isSome cols old r.metrics c hc hp
    · rw [compute_derivative_rows]
      exact alist_get_newstate_of_mem cs r hnd hr
  · intro cols state k css v0 vrest hnone hf hchain hp c hc
    cases hf with
    | cons hgood hf2 =>
      rename_i cs0 rest
      obtain ⟨hnd, r, hr, hk, hv⟩ := hgood
      have hfilter0 : (compute_derivative_rows cols state cs0).1.filter
          (fun x => decide (rowKey x = k)) = [] := by
        rw [← hk, cycle_filter_key cols state cs0 r hnd hr,
          derivRow_unseen cols state r (by rw [hk]; exact hnone)]
        rfl
      have hstate1 : alist_get k (compute_derivative_rows cols state cs0).2 =
          some v0 := by
        rw [compute_derivative_rows, ← hk, ← hv]
        exact alist_get_newstate_of_mem cs0 r hnd hr
      have haux := telescope_aux cols k rest vrest
        (compute_derivative_rows cols state cs0).2 v0 hstate1 hf2 hchain
        (fun v hv2 => hp v (List.mem_cons_of_mem v0 hv2)) c hc
      rw [run_cycles_cons, emittedSumFor_cons, hfilter0]
      simpa using haux

/-- C2: when at least one tracked column strictly decreased, the whole row is
treated as a reset: the emitted row carries the new absolute values in all
metric columns and the baseline becomes the new values; moreover, on inputs
with non-negative counters, no emitted row ever carries a negative value in
a tracked column. -/
theorem claim_C2_counter_reset :
    (∀ (cols : List String) (state : DeltaState) (cs : List NRow)
        (r : NRow) (old : Metrics),
      (cs.map rowKey).Nodup → r ∈ cs →
      alist_get (rowKey r) state = some old →
      (∃ c ∈ cols, getMetric r.metrics c < getMetric old c) →
      ((compute_derivative_rows cols state cs).1.filter
          (fun x => decide (rowKey x = rowKey r)) = [r] ∧
      alist_get (rowKey r) (compute_derivative_rows cols state cs).2 =
        some r.metrics))
  ∧ (∀ (cols : List String) (state : DeltaState) (cs : List NRow),
      (∀ x ∈ cs, ∀ c : String, 0 ≤ getMetric x.metrics c) →
      ∀ y ∈ (compute_derivative_rows cols state cs).1, ∀ c ∈ cols,
        0 ≤ getMetric y.metrics c) := by
  constructor
  · intro cols state cs r old hnd hr hlook hex
    have hlt : ¬ ∀ c ∈ cols, getMetric old c ≤ getMetric r.metrics c := by
      intro hall
      obtain ⟨c, hc, hdec⟩ := hex
      exact absurd (hall c hc) (not_le.mpr hdec)
    refine ⟨?_, ?_⟩
    · rw [cycle_filter_key cols state cs r hnd hr,
        derivRow_reset cols state r old hlook hlt]
      rfl
    · rw [compute_derivative_rows]
      exact alist_get_newstate_of_mem cs r hnd hr
  · intro cols state cs hnn y hy c hc
    rcases List.mem_filterMap.mp hy with ⟨a, ha, hfa⟩
    cases hlook : alist_get (rowKey a) state with
    | none =>
      rw [derivRow_unseen cols state a hlook] at hfa
      cases hfa
    | some old =>
      by_cases hb : ∀ c2 ∈ cols, getMetric old c2 ≤ getMetric a.metrics c2
      · rw [derivRow_mono cols state a old hlook hb] at hfa
        cases hfa
        show 0 ≤ getMetric (deltaMetrics cols old a.metrics) c
        cases hpc : alist_get c a.metrics with
        | some v =>
          have h1 := hb c hc
          have h2 : getMetric a.metrics c = v := by
            rw [getMetric, hpc]
            rfl
          rw [h2] at h1
          rw [getMetric, alist_get_deltaMetrics, hpc]
          simp only [Option.map_some', if_pos hc, Option.getD_some]
          linarith
        | none =>
          rw [getMetric, alist_get_deltaMetrics, hpc]
          simp
      · rw [derivRow_reset cols state a old hlook hb] at hfa
        cases hfa
        exact hnn _ ha c

/-- C3: the first observation of an identity records a baseline and emits
nothing; an identity absent from the input rows of a cycle is removed from
the stored state; consequently, a cycle without the identity followed by a
cycle with it behaves as a first observation again: nothing is emitted for
the identity and its baseline is re-recorded from the new absolute values. -/
theorem claim_C3_first_observation_and_eviction :
    (∀ (cols : List String) (state : DeltaState) (cs : List NRow) (r : NRow),
      (cs.map rowKey).Nodup → r ∈ cs →
      alist_get (rowKey r) state = none →
      ((compute_derivative_rows cols state cs).1.filter
          (fun x => decide (rowKey x = rowKey r)) = [] ∧
      alist_get (rowKey r) (compute_derivative_rows cols state cs).2 =
        some r.metrics))
  ∧ (∀ (cols : List String) (state : DeltaState) (cs : List NRow) (k : RKey),
      k ∉ cs.map rowKey →
      alist_get k (compute_derivative_rows cols state cs).2 = none)
  ∧ (∀ (cols : List String) (state : DeltaState) (cs1 cs2 : List NRow)
        (k : RKey) (r : NRow),
      k ∉ cs1.map rowKey → (cs2.map rowKey).Nodup → r ∈ cs2 → rowKey r = k →
      ((compute_derivative_rows cols
            (compute_derivative_rows cols state cs1).2 cs2).1.filter
          (fun x => decide (rowKey x = k)) = [] ∧
      alist_get k (compute_derivative_rows cols
          (compute_derivative_rows cols state cs1).2 cs2).2 = some r.metrics)) := by
  have hfirst : ∀ (cols : List String) (state : DeltaState) (cs : List NRow)
      (r : NRow),
      (cs.map rowKey).Nodup → r ∈ cs →
      alist_get (rowKey r) state = none →
      ((compute_derivative_rows cols state cs).1.filter
          (fun x => decide (rowKey x = rowKey r)) = [] ∧
      alist_get (rowKey r) (compute_derivative_rows cols state cs).2 =
        some r.metrics) := by
    intro cols state cs r hnd hr hlook
    refine ⟨?_, ?_⟩
    · rw [cycle_filter_key cols state cs r hnd hr,
        derivRow_unseen cols state r hlook]
      rfl
    · rw [compute_derivative_rows]
      exact alist_get_newstate_of_mem cs r hnd hr
  have hevict : ∀ (cols : List String) (state : DeltaState) (cs : List NRow)
      (k : RKey), k ∉ cs.map rowKey →
      alist_get k (compute_derivative_rows cols state cs).2 = none := by
    intro cols state cs k hk
    rw [compute_derivative_rows]
    exact alist_get_newstate_of_not_mem cs k hk
  refine ⟨hfirst, hevict, ?_⟩
  intro cols state cs1 cs2 k r hk1 hnd hr hk
  have h1 := hfirst cols (compute_derivative_rows cols state cs1).2 cs2 r hnd hr
    (by rw [hk]; exact hevict cols state cs1 k hk1)
  rw [hk] at h1
  exact h1

/-- Witness for C1: one monotone step emits exactly the delta row, and a
two-cycle monotone run sums to final minus first for the calls column. -/
theorem claim_C1_delta_and_telescoping_witness :
    ((compute_derivative_rows wCols [(wKey, wRow1.metrics)] [wRow2]).1.filter
        (fun x => decide (rowKey x = rowKey wRow2)) =
      [{ wRow2 with metrics := deltaMetrics wCols wRow1.metrics wRow2.metrics }]) ∧
    emittedSumFor wKey "calls" (run_cycles wCols [] [[wRow1], [wRow2]]).1 =
      getMetric ([wRow2.metrics].getLastD wRow1.metrics) "calls" -
        getMetric wRow1.metrics "calls" := by
  constructor
  · exact (claim_C1_delta_and_telescoping.1 wCols [(wKey, wRow1.metrics)]
      [wRow2] wRow2 wRow1.metrics (by decide) (by decide) (by decide)
      (by decide)).1
  · exact claim_C1_delta_and_telescoping.2 wCols [] wKey [[wRow1], [wRow2]]
      wRow1.metrics [wRow2.metrics] (by decide)
      (List.Forall₂.cons ⟨by decide, wRow1, by decide, by decide, by decide⟩
        (List.Forall₂.cons ⟨by decide, wRow2, by decide, by decide, by decide⟩
          List.Forall₂.nil))
      (List.chain'_cons.mpr
        ⟨show ∀ c ∈ wCols, getMetric wRow1.metrics c ≤ getMetric wRow2.metrics c
           by decide,
         by simp⟩)
      (by decide) "calls" (by decide)

/-- Witness for C2: a decreased calls counter makes the engine emit the new
absolute values, re-record the baseline, and the non-negativity statement
holds at the same concrete input. -/
theorem claim_C2_counter_reset_witness :
    ((compute_derivative_rows wCols [(wKey, wRow2.metrics)] [wRow3]).1.filter
        (fun x => decide (rowKey x = rowKey wRow3)) = [wRow3] ∧
      alist_get (rowKey wRow3)
        (compute_derivative_rows wCols [(wKey, wRow2.metrics)] [wRow3]).2 =
        some wRow3.metrics) ∧
    (∀ y ∈ (compute_derivative_rows wCols [(wKey, wRow2.metrics)] [wRow3]).1,
      ∀ c ∈ wCols, 0 ≤ getMetric y.metrics c) := by
  constructor
  · exact claim_C2_counter_reset.1 wCols [(wKey, wRow2.metrics)] [wRow3] wRow3
      wRow2.metrics (by decide) (by decide) (by decide)
      ⟨"calls", by decide, by decide⟩
  · refine claim_C2_counter_reset.2 wCols [(wKey, wRow2.metrics)] [wRow3] ?_
    intro x hx c
    have hx2 : x = wRow3 := by simpa using hx
    subst hx2
    by_cases h1 : ("calls" : String) = c
    · simp [getMetric, wRow3, alist_get, h1]
    · by_cases h2 : ("rows" : String) = c
      · simp [getMetric, wRow3, alist_get, h1, h2]
      · simp [getMetric, wRow3, alist_get, h1, h2]

/-- Witness for C3: a first observation emits nothing and records the
baseline; a cycle without the identity evicts it; the reappearance after an
absent cycle is again a first observation. -/
theorem claim_C3_first_observation_and_eviction_witness :
    ((compute_derivative_rows wCols [] [wRow1]).1.filter
        (fun x => decide (rowKey x = rowKey wRow1)) = [] ∧
      alist_get (rowKey wRow1) (compute_derivative_rows wCols [] [wRow1]).2 =
        some wRow1.metrics) ∧
    alist_get wKey (compute_derivative_rows wCols [(wKey, wRow1.metrics)] []).2 =
      none ∧
    ((compute_derivative_rows wCols
          (compute_derivative_rows wCols [(wKey, wRow1.metrics)] []).2
          [wRow2]).1.filter (fun x => decide (rowKey x = wKey)) = [] ∧
      alist_get wKey (compute_derivative_rows wCols
          (compute_derivative_rows wCols [(wKey, wRow1.metrics)] []).2
          [wRow2]).2 = some wRow2.metrics) := by
  refine ⟨?_, ?_, ?_⟩
  · exact claim_C3_first_observation_and_eviction.1 wCols [] [wRow1] wRow1
      (by decide) (by decide) (by decide)
  · exact claim_C3_first_observation_and_eviction.2.1 wCols
      [(wKey, wRow1.metrics)] [] wKey (by decide)
  · exact claim_C3_first_observation_and_eviction.2.2 wCols
      [(wKey, wRow1.metrics)] [] [wRow2] wKey wRow2 (by decide) (by decide)
      (by decide) (by decide)

/-!  ## Claim theorems for the fetcher -/

/-- C4: when a required column (calls, query or rows) is missing from the
discovered columns, the fetch returns an empty list without raising,
increments dd.postgres.statement_metrics.error exactly once with the
missing-columns tag, and leaves the delta state and the full text cache
untouched; the result does not depend on the statistics query outcome since
the environment is arbitrary in that component. -/
theorem claim_C4_missing_required_columns :
    ∀ (env : Env) (st : JobState) (cols : List String),
      st.stat_column_cache = [] →
      env.columns_result = .ok cols →
      (PG_STAT_STATEMENTS_REQUIRED_COLUMNS.filter
        (fun c => !(cols.contains c))).length > 0 →
      load_pg_stat_statements env st =
        (.ok [], { st with stat_column_cache := cols },
          [{ name := "dd.postgres.statement_metrics.error",
             tags := env.tags ++
               ["error:database-missing_pg_stat_statements_required_columns"] ++
               env.debug_tags }]) ∧
      ({ st with stat_column_cache := cols } : JobState).state = st.state ∧
      ({ st with stat_column_cache := cols } : JobState).fqt_cache = st.fqt_cache := by
  intro env st cols hcache hcols hmiss
  refine ⟨?_, rfl, rfl⟩
  rw [load_pg_stat_statements, get_pg_stat_statements_columns, hcache, hcols]
  simp only [List.length_nil, gt_iff_lt, lt_self_iff_false, if_false,
    execute_query]
  rw [if_pos hmiss]
  rfl

/-- C7: a psycopg2 error from the statistics query is caught: the fetch
returns an empty list, increments the diagnostic counter exactly once with
the classifying tag, and the stat column cache is cleared exactly when the
error is a ProgrammingError or a QueryCanceled; the tag is the not-loaded
form for an ObjectNotInPrerequisiteState mentioning the loaded-library
message, the not-created form for an UndefinedTable mentioning
pg_stat_statements, and the bare error type name otherwise. -/
theorem claim_C7_execution_error_classified :
    ∀ (env : Env) (st : JobState) (cols : List String) (e : PgError),
      st.stat_column_cache = [] →
      env.columns_result = .ok cols →
      (PG_STAT_STATEMENTS_REQUIRED_COLUMNS.filter
        (fun c => !(cols.contains c))).length = 0 →
      env.exec_result = .error (.pg e) →
      (load_pg_stat_statements env st =
        (.ok [],
          { st with stat_column_cache :=
              if e.isProgrammingError || e.isQueryCanceled then [] else cols },
          [{ name := "dd.postgres.statement_metrics.error",
             tags := env.tags ++ [classifyErrorTag e] ++ env.debug_tags }])) ∧
      ((e.isObjectNotInPrerequisiteState &&
          strContains e.pgerror "pg_stat_statements must be loaded") = true →
        classifyErrorTag e =
          "error:database-" ++ e.typeName ++ "-pg_stat_statements_not_loaded") ∧
      ((e.isObjectNotInPrerequisiteState &&
          strContains e.pgerror "pg_stat_statements must be loaded") = false →
        (e.isUndefinedTable && strContains e.pgerror "pg_stat_statements") = true →
        classifyErrorTag e =
          "error:database-" ++ e.typeName ++ "-pg_stat_statements_not_created") ∧
      ((e.isObjectNotInPrerequisiteState &&
          strContains e.pgerror "pg_stat_statements must be loaded") = false →
        (e.isUndefinedTable && strContains e.pgerror "pg_stat_statements") = false →
        classifyErrorTag e = "error:database-" ++ e.typeName) := by
  intro env st cols e hcache hcols hreq hexec
  refine ⟨?_, ?_, ?_, ?_⟩
  · rw [load_pg_stat_statements, get_pg_stat_statements_columns, hcache, hcols]
    simp only [List.length_nil, gt_iff_lt, lt_self_iff_false, if_false,
      execute_query]
    rw [if_neg (by omega : ¬ (PG_STAT_STATEMENTS_REQUIRED_COLUMNS.filter
      (fun c => !(cols.contains c))).length > 0)]
    rw [hexec]
    simp only [execute_query]
    by_cases hflag : (e.isProgrammingError || e.isQueryCanceled) = true
    · rw [if_pos hflag, if_pos hflag]
      rfl
    · rw [if_neg hflag, if_neg hflag]
      rfl
  · intro h1
    rw [classifyErrorTag, if_pos (by simpa using h1)]
  · intro h1 h2
    rw [classifyErrorTag, if_neg (by simpa using h1), if_pos (by simpa using h2)]
  · intro h1 h2
    rw [classifyErrorTag, if_neg (by simpa using h1), if_neg (by simpa using h2)]

/-!  ## Claim theorem for normalization -/

/-- C5: normalization returns exactly the rows whose obfuscation succeeded,
in input order, pairing each with its transform: query replaced by the
obfuscated text and signature computed from it.  The function is total, so
no exception escapes it. -/
theorem claim_C5_normalization_skips_failures :
    ∀ (env : Env) (rows : List RawRow),
      List.Forall₂ (NormalizedFrom env)
        (rows.filter (fun r => (env.obfuscate r.query).isSome))
        (normalize_queries env rows) := by
  intro env rows
  induction rows with
  | nil => exact List.Forall₂.nil
  | cons a tl ih =>
    cases hob : env.obfuscate a.query with
    | none =>
      have h1 : (a :: tl).filter (fun r => (env.obfuscate r.query).isSome) =
          tl.filter (fun r => (env.obfuscate r.query).isSome) := by
        simp [List.filter_cons, hob]
      have h2 : normalize_queries env (a :: tl) = normalize_queries env tl := by
        simp [normalize_queries, List.filterMap_cons, hob]
      rw [h1, h2]
      exact ih
    | some s =>
      have h1 : (a :: tl).filter (fun r => (env.obfuscate r.query).isSome) =
          a :: tl.filter (fun r => (env.obfuscate r.query).isSome) := by
        simp [List.filter_cons, hob]
      have h2 : normalize_queries env (a :: tl) =
          { data := { query := s.query,
                      query_signature := env.compute_sig s.query,
                      datname := a.datname, rolname := a.rolname,
                      metrics := a.metrics },
            metadata := s.metadata } :: normalize_queries env tl := by
        simp [normalize_queries, List.filterMap_cons, hob]
      rw [h1, h2]
      exact List.Forall₂.cons ⟨s, hob, rfl, rfl, rfl, rfl, rfl, rfl⟩ ih

/-!  ## Claim theorem for metadata re-attachment -/

lemma alist_get_buildSigMap_aux (s : String) :
    ∀ (rows : List DbRow) (m : List (String × Metadata)),
      alist_get s (rows.foldl
          (fun acc r => dict_set acc r.data.query_signature r.metadata) m) =
        match lastMetaFor s rows with
        | some x => some x
        | none => alist_get s m := by
  intro rows
  induction rows with
  | nil => intro m; rfl
  | cons r rest ih =>
    intro m
    rw [List.foldl_cons, ih]
    cases hrest : lastMetaFor s rest with
    | some x => simp [lastMetaFor, hrest]
    | none =>
      rw [alist_get_dict_set]
      by_cases hs : r.data.query_signature = s
      · simp [lastMetaFor, hrest, hs]
      · simp [lastMetaFor, hrest, hs]

lemma alist_get_buildSigMap (s : String) (rows : List DbRow) :
    alist_get s (buildSigMap rows) = lastMetaFor s rows := by
  rw [buildSigMap, alist_get_buildSigMap_aux]
  cases lastMetaFor s rows <;> simp [alist_get]

lemma lastMetaFor_append_singleton (s : String) (l : List DbRow) (r : DbRow) :
    lastMetaFor s (l ++ [r]) =
      if r.data.query_signature = s then some r.metadata else lastMetaFor s l := by
  induction l with
  | nil =>
    by_cases hs : r.data.query_signature = s <;> simp [lastMetaFor, hs]
  | cons a tl ih =>
    rw [List.cons_append, lastMetaFor, ih]
    by_cases hs : r.data.query_signature = s
    · simp [hs]
    · simp only [if_neg hs]
      rfl

/-- C10: the metadata re-attached after delta computation is looked up by
query signature alone, so every output row carrying a signature receives the
metadata stored for that signature, which is the metadata of the last row of
the normalized batch with that signature regardless of database or role. -/
theorem claim_C10_metadata_by_signature_last_wins :
    (∀ (db_rows : List DbRow) (rows : List NRow) (p : OutRow),
      p ∈ remapMetadata (buildSigMap db_rows) rows →
      p.2 = lastMetaFor p.1.query_signature db_rows)
  ∧ (∀ (s : String) (l : List DbRow) (r : DbRow),
      r.data.query_signature = s →
      lastMetaFor s (l ++ [r]) = some r.metadata) := by
  constructor
  · intro db_rows rows p hp
    rcases List.mem_map.mp hp with ⟨row, hrow, heq⟩
    rw [← heq]
    exact alist_get_buildSigMap row.query_signature db_rows
  · intro s l r hs
    rw [lastMetaFor_append_singleton, if_pos hs]

/-!  ## Claim theorem for the full text sampler -/

/-- C6: while an identity is live in the full statement text cache, a row
with that identity yields no event; an identity not live is inserted with
expiry now plus the configured ttl and yields exactly one event; the ttl
configured at construction equals 3600 divided by the samples-per-hour rate;
and once the stored expiry has passed, a repeat observation yields exactly
one more event and refreshes the expiry. -/
theorem claim_C6_fqt_sampling_ttl :
    ∀ (env : Env) (rate : ℚ) (cache : List (RKey × ℚ)) (row : OutRow),
      (cacheContains cache env.now (rowKey row.1) = true →
        rows_to_fqt_events env (full_statement_text_cache_ttl rate) cache [row] =
          ([], cache)) ∧
      (cacheContains cache env.now (rowKey row.1) = false →
        rows_to_fqt_events env (full_statement_text_cache_ttl rate) cache [row] =
          ([mkFqtEvent env row.1],
            dict_set cache (rowKey row.1)
              (env.now + full_statement_text_cache_ttl rate))) ∧
      full_statement_text_cache_ttl rate = 3600 / rate ∧
      (∀ now2 : ℚ, env.now + full_statement_text_cache_ttl rate ≤ now2 →
        rows_to_fqt_events { env with now := now2 }
            (full_statement_text_cache_ttl rate)
            (dict_set cache (rowKey row.1)
              (env.now + full_statement_text_cache_ttl rate)) [row] =
          ([mkFqtEvent { env with now := now2 } row.1],
            dict_set (dict_set cache (rowKey row.1)
                (env.now + full_statement_text_cache_ttl rate)) (rowKey row.1)
              (now2 + full_statement_text_cache_ttl rate))) := by
  intro env rate cache row
  refine ⟨?_, ?_, ?_, ?_⟩
  · intro hlive
    rw [rows_to_fqt_events]
    simp only [hlive, if_true]
    rfl
  · intro hdead
    rw [rows_to_fqt_events]
    simp only [hdead, if_false]
    rfl
  · rw [full_statement_text_cache_ttl]
    norm_num
  · intro now2 hexp
    have hdead2 : cacheContains
        (dict_set cache (rowKey row.1)
          (env.now + full_statement_text_cache_ttl rate)) now2 (rowKey row.1) =
        false := by
      rw [cacheContains, alist_get_dict_set, if_pos rfl]
      simp only [decide_eq_false_iff_not, not_lt]
      exact hexp
    rw [rows_to_fqt_events]
    simp only [hdead2, if_false]
    rfl

/-!  ## Claim theorem for the top level exception handler -/

/-- C8: an exception escaping any stage of the cycle body is caught at the
top of collect_per_statement_metrics: the cycle records the logged exception
and emits no metrics payload, and the handler returns normally; in
particular a non-psycopg2 exception raised while executing the statistics
query propagates through the fetcher to the top level handler, which ends
the cycle with no payload, no events and the exception logged. -/
theorem claim_C8_cycle_exception_caught :
    (∀ (env : Env) (st : JobState) (n : String) (st1 : JobState)
        (incs : List CounterInc),
      collect_body env st = .error (n, st1, incs) →
      collect_per_statement_metrics env st =
        { st := st1, incs := incs, fqt_events := [], metrics_payload := none,
          exn_logged := some n })
  ∧ (∀ (env : Env) (st : JobState) (cols : List String) (n : String),
      st.stat_column_cache = [] →
      env.columns_result = .ok cols →
      (PG_STAT_STATEMENTS_REQUIRED_COLUMNS.filter
        (fun c => !(cols.contains c))).length = 0 →
      env.exec_result = .error (.other n) →
      collect_per_statement_metrics env st =
        { st := { st with stat_column_cache := cols }, incs := [],
          fqt_events := [], metrics_payload := none, exn_logged := some n }) := by
  constructor
  · intro env st n st1 incs hbody
    rw [collect_per_statement_metrics, hbody]
  · intro env st cols n hcache hcols hreq hexec
    have hload : load_pg_stat_statements env st =
        (.error n, { st with stat_column_cache := cols }, []) := by
      rw [load_pg_stat_statements, get_pg_stat_statements_columns, hcache, hcols]
      simp only [List.length_nil, gt_iff_lt, lt_self_iff_false, if_false,
        execute_query]
      rw [if_neg (by omega : ¬ (PG_STAT_STATEMENTS_REQUIRED_COLUMNS.filter
        (fun c => !(cols.contains c))).length > 0)]
      rw [hexec]
    have hcm : collect_metrics_rows env st =
        (.error n, { st with stat_column_cache := cols }, []) := by
      rw [collect_metrics_rows, hload]
    have hbody : collect_body env st =
        .error (n, { st with stat_column_cache := cols }, []) := by
      rw [collect_body, hcm]
    rw [collect_per_statement_metrics, hbody]

/-!  ## Claim theorem for payload assembly -/

lemma fqt_event_from_some_row (env : Env) (ttl : ℚ) :
    ∀ (rows : List OutRow) (cache : List (RKey × ℚ)) (e : FqtEvent),
      e ∈ (rows_to_fqt_events env ttl cache rows).1 →
      ∃ r ∈ rows, e = mkFqtEvent env r.1 := by
  intro rows
  induction rows with
  | nil =>
    intro cache e he
    simp [rows_to_fqt_events] at he
  | cons row rest ih =>
    intro cache e he
    rw [rows_to_fqt_events] at he
    by_cases hc : cacheContains cache env.now (rowKey row.1) = true
    · rw [if_pos hc] at he
      obtain ⟨r, hr, he2⟩ := ih cache e he
      exact ⟨r, List.mem_cons_of_mem row hr, he2⟩
    · rw [if_neg hc] at he
      rcases List.mem_cons.mp he with h | h
      · exact ⟨row, List.mem_cons_self row rest, h⟩
      · obtain ⟨r, hr, he2⟩ := ih _ e h
        exact ⟨r, List.mem_cons_of_mem row hr, he2⟩

/-- C9: on a successful cycle with surviving rows, the metrics payload rows
carry the query text truncated to its first 200 characters with the parsed
table and command metadata flattened in under dd_tables and dd_commands,
while every full query text event emitted by the same cycle carries the
complete untruncated obfuscated statement of one of the rows, the events
being generated from the rows before the truncation is applied. -/
theorem claim_C9_truncation_vs_full_text :
    ∀ (env : Env) (st : JobState) (rows : List OutRow) (st1 : JobState)
        (incs : List CounterInc),
      collect_metrics_rows env st = (.ok rows, st1, incs) →
      0 < rows.length →
      ∃ p : MetricsPayload,
        (collect_per_statement_metrics env st).metrics_payload = some p ∧
        List.Forall₂ (fun (r : OutRow) (q : PayloadRow) =>
          q.query = r.1.query.take 200 ∧
          q.query_signature = r.1.query_signature ∧
          q.dd_tables = (r.2.map Metadata.parse_tables_csv).getD [] ∧
          q.dd_commands = (r.2.map Metadata.commands).getD []) rows
          p.postgres_rows ∧
        (∀ e ∈ (collect_per_statement_metrics env st).fqt_events,
          ∃ r ∈ rows, e.query_signature = r.1.query_signature ∧
            e.statement = r.1.query) := by
  intro env st rows st1 incs hcm hlen
  have hbody : collect_body env st = .ok
      ({ st1 with fqt_cache :=
          (rows_to_fqt_events env env.fqt_ttl st1.fqt_cache rows).2 },
        incs, (rows_to_fqt_events env env.fqt_ttl st1.fqt_cache rows).1,
        some { host := env.hostname, timestamp := env.now * 1000,
               min_collection_interval := env.min_collection_interval,
               tags := tags_no_db env.tags,
               postgres_rows := rows.map toPayloadRow,
               postgres_version := env.pg_version,
               ddagentversion := env.agent_version }) := by
    have hne : rows.length = 0 ↔ False := by
      constructor
      · intro h0
        omega
      · intro h0
        cases h0
    simp only [collect_body, hcm, hne, if_false]
  refine ⟨{ host := env.hostname, timestamp := env.now * 1000,
            min_collection_interval := env.min_collection_interval,
            tags := tags_no_db env.tags,
            postgres_rows := rows.map toPayloadRow,
            postgres_version := env.pg_version,
            ddagentversion := env.agent_version }, ?_, ?_, ?_⟩
  · rw [collect_per_statement_metrics, hbody]
  · rw [List.forall₂_map_right_iff, List.forall₂_same]
    intro r hr
    simp [toPayloadRow]
  · intro e he
    rw [collect_per_statement_metrics, hbody] at he
    obtain ⟨r, hr, he2⟩ := fqt_event_from_some_row env env.fqt_ttl rows
      st1.fqt_cache e he
    subst he2
    exact ⟨r, hr, rfl, rfl⟩

/-- Witness for C4: with only the query column discovered, the fetch returns
empty with exactly one missing-columns increment. -/
theorem claim_C4_missing_required_columns_witness :
    load_pg_stat_statements { wEnv with columns_result := .ok ["query"] } wSt =
      (.ok [], { wSt with stat_column_cache := ["query"] },
        [{ name := "dd.postgres.statement_metrics.error",
           tags := wEnv.tags ++
             ["error:database-missing_pg_stat_statements_required_columns"] ++
             wEnv.debug_tags }]) ∧
    ({ wSt with stat_column_cache := ["query"] } : JobState).state = wSt.state ∧
    ({ wSt with stat_column_cache := ["query"] } : JobState).fqt_cache =
      wSt.fqt_cache := by
  exact claim_C4_missing_required_columns
    { wEnv with columns_result := .ok ["query"] } wSt ["query"] rfl rfl
    (by decide)

/-- Witness for C7: the UndefinedTable error is classified as not-created,
counted once, converted to an empty result, and clears the column cache
since it is a ProgrammingError. -/
theorem claim_C7_execution_error_classified_witness :
    load_pg_stat_statements { wEnv with exec_result := .error (.pg wPgErr) } wSt =
      (.ok [],
        { wSt with stat_column_cache :=
            if wPgErr.isProgrammingError || wPgErr.isQueryCanceled then []
            else ["calls", "query", "rows"] },
        [{ name := "dd.postgres.statement_metrics.error",
           tags := wEnv.tags ++ [classifyErrorTag wPgErr] ++ wEnv.debug_tags }]) ∧
    classifyErrorTag wPgErr =
      "error:database-" ++ wPgErr.typeName ++ "-pg_stat_statements_not_created" := by
  constructor
  · exact (claim_C7_execution_error_classified
      { wEnv with exec_result := .error (.pg wPgErr) } wSt
      ["calls", "query", "rows"] wPgErr rfl rfl (by decide) rfl).1
  · exact (claim_C7_execution_error_classified
      { wEnv with exec_result := .error (.pg wPgErr) } wSt
      ["calls", "query", "rows"] wPgErr rfl rfl (by decide) rfl).2.2.1
      (by decide) (by decide)

/-- Witness for C8: a non-psycopg2 exception from the statistics query ends
the cycle with no payload and the exception logged. -/
theorem claim_C8_cycle_exception_caught_witness :
    collect_per_statement_metrics
        { wEnv with exec_result := .error (.other "boom") } wSt =
      { st := { wSt with stat_column_cache := ["calls", "query", "rows"] },
        incs := [], fqt_events := [], metrics_payload := none,
        exn_logged := some "boom" } := by
  exact claim_C8_cycle_exception_caught.2
    { wEnv with exec_result := .error (.other "boom") } wSt
    ["calls", "query", "rows"] "boom" rfl rfl (by decide) rfl

/-- Witness for C6: a row not yet cached yields one event and is inserted
with expiry now plus 1800 seconds at 2 samples per hour; the configured ttl
is 3600 divided by the rate; once the expiry passed, the same row yields one
more event. -/
theorem claim_C6_fqt_sampling_ttl_witness :
    rows_to_fqt_events wEnv (full_statement_text_cache_ttl 2) []
        [((wRow1 : NRow), (none : Option Metadata))] =
      ([mkFqtEvent wEnv wRow1],
        dict_set [] (rowKey wRow1) (wEnv.now + full_statement_text_cache_ttl 2)) ∧
    full_statement_text_cache_ttl 2 = 3600 / 2 ∧
    rows_to_fqt_events { wEnv with now := 2000 } (full_statement_text_cache_ttl 2)
        (dict_set [] (rowKey wRow1) (wEnv.now + full_statement_text_cache_ttl 2))
        [(wRow1, none)] =
      ([mkFqtEvent { wEnv with now := 2000 } wRow1],
        dict_set
          (dict_set [] (rowKey wRow1) (wEnv.now + full_statement_text_cache_ttl 2))
          (rowKey wRow1) (2000 + full_statement_text_cache_ttl 2)) := by
  refine ⟨?_, ?_, ?_⟩
  · exact (claim_C6_fqt_sampling_ttl wEnv 2 [] (wRow1, none)).2.1 rfl
  · exact (claim_C6_fqt_sampling_ttl wEnv 2 [] (wRow1, none)).2.2.1
  · exact (claim_C6_fqt_sampling_ttl wEnv 2 [] (wRow1, none)).2.2.2 2000
      (by norm_num [wEnv, full_statement_text_cache_ttl])

/-- Witness for C9 at a one-row cycle. -/
theorem claim_C9_truncation_vs_full_text_witness :
    ∃ p : MetricsPayload,
      (collect_per_statement_metrics { wEnv with exec_result := .ok [wRaw] }
        wSt2).metrics_payload = some p ∧
      List.Forall₂ (fun (r : OutRow) (q : PayloadRow) =>
        q.query = r.1.query.take 200 ∧
        q.query_signature = r.1.query_signature ∧
        q.dd_tables = (r.2.map Metadata.parse_tables_csv).getD [] ∧
        q.dd_commands = (r.2.map Metadata.commands).getD [])
        [(wDeltaRow, some wMetaEmpty)] p.postgres_rows ∧
      (∀ e ∈ (collect_per_statement_metrics
          { wEnv with exec_result := .ok [wRaw] } wSt2).fqt_events,
        ∃ r ∈ [((wDeltaRow : NRow), some wMetaEmpty)],
          e.query_signature = r.1.query_signature ∧
            e.statement = r.1.query) := by
  exact claim_C9_truncation_vs_full_text { wEnv with exec_result := .ok [wRaw] }
    wSt2 [(wDeltaRow, some wMetaEmpty)] wStOut [] rfl (by decide)

/-- Witness for C10: with two rows sharing signature s1 but differing in
database, the remapped metadata is the one of the last such row. -/
theorem claim_C10_metadata_by_signature_last_wins_witness :
    wP.2 = lastMetaFor wP.1.query_signature [wDbRowA, wDbRowB] ∧
    lastMetaFor "s1" ([wDbRowA] ++ [wDbRowB]) = some wMeta2 := by
  constructor
  · exact claim_C10_metadata_by_signature_last_wins.1 [wDbRowA, wDbRowB]
      [wRow1] wP (List.mem_cons_self _ _)
  · exact claim_C10_metadata_by_signature_last_wins.2 "s1" [wDbRowA] wDbRowB
      (by decide)

end PgStatements
